import Mathlib

/-!
Shallow embedding of the GO-CLI task tracker (`src/main.go`).

The program keeps a global slice of tasks, adds tasks with
`id = len(slice) + 1`, deletes the first task matching a requested id,
persists the slice as JSON after every mutation, and drives everything
from an interactive menu loop.  The definitions below translate the
pure core of each function; the interactive menu loop is embedded as a
step function over an explicit mode/state machine.
-/

namespace GoCli

/-- ASCII whitespace, the fragment of Go `unicode.IsSpace` relevant to
terminal input lines (`strings.TrimSpace` in `addTask`/`deleteTask`). -/
def isSpaceChar (c : Char) : Bool :=
  c = ' ' || c = '\t' || c = '\n' || c = '\r' || c = '\x0b' || c = '\x0c'

/-- Go `strings.TrimSpace`: drop leading and trailing whitespace. -/
def trimSpace (s : String) : String :=
  ⟨((s.data.dropWhile isSpaceChar).reverse.dropWhile isSpaceChar).reverse⟩

/-- Go `strings.ToUpper`, restricted to ASCII letters (all the letters the
program ever compares against). -/
def toUpperChar (c : Char) : Char :=
  if 'a' ≤ c && c ≤ 'z' then Char.ofNat (c.toNat - 32) else c

/-- Go `strings.ToUpper` on a whole string. -/
def toUpperStr (s : String) : String :=
  ⟨s.data.map toUpperChar⟩

/-- A calendar date as produced by Go `time.Parse("Jan 02, 2006", _)`
(the parsed `time.Time` is midnight UTC of this date). -/
structure Date where
  year : Nat
  month : Nat
  day : Nat
deriving DecidableEq, Repr

/-- The `Task` struct of `main.go`.  `DueDate` and `TimeCreated` are
`time.Time` in Go; the due date carries only a calendar date and the
creation instant is abstracted as an integer timestamp. -/
structure Task where
  ID : Int
  Title : String
  AssignedTo : String
  Status : Bool
  DueDate : Date
  TimeCreated : Int
deriving DecidableEq, Repr

/-- Initial value of the global slice, `var TasksSlice = []Task{}`. -/
def initialTasksSlice : List Task := []

/-! ### Go `time.Parse("Jan 02, 2006", value)`

Translated from Go's `time.Parse` specialised to the fixed layout used by
`addTask`: a short month name (ASCII case-insensitive prefix match, as in
Go's `lookup`/`match`), a literal space, exactly two digits of day, the
literal `", "`, exactly four digits of year, nothing after; finally the
day is range-checked against the month (Go's "day out of range" check). -/

/-- Go `time.match`: ASCII case-insensitive equality of two bytes. -/
def matchChar (c1 c2 : Char) : Bool :=
  if c1 = c2 then true
  else
    let l1 := Char.ofNat (c1.toNat ||| 32)
    let l2 := Char.ofNat (c2.toNat ||| 32)
    l1 = l2 && 'a' ≤ l1 && l1 ≤ 'z'

/-- Case-insensitive literal match of `pat` at the front of `cs`,
returning the rest on success. -/
def matchLit : List Char → List Char → Option (List Char)
  | [], cs => some cs
  | _ :: _, [] => none
  | p :: ps, c :: cs => if matchChar p c then matchLit ps cs else none

/-- Go `shortMonthNames`. -/
def shortMonthNames : List (List Char) :=
  [['J','a','n'], ['F','e','b'], ['M','a','r'], ['A','p','r'],
   ['M','a','y'], ['J','u','n'], ['J','u','l'], ['A','u','g'],
   ['S','e','p'], ['O','c','t'], ['N','o','v'], ['D','e','c']]

/-- Go `lookup(shortMonthNames, value)`: first month whose name is a
case-insensitive front of the input; months numbered from 1. -/
def lookupMonth (cs : List Char) : Option (Nat × List Char) :=
  go 1 shortMonthNames
where
  go (i : Nat) : List (List Char) → Option (Nat × List Char)
    | [] => none
    | name :: rest =>
      match matchLit name cs with
      | some r => some (i, r)
      | none => go (i + 1) rest

def isDigitChar (c : Char) : Bool := '0' ≤ c && c ≤ '9'

def digitVal (c : Char) : Nat := c.toNat - 48

/-- Go `isLeap`. -/
def isLeap (y : Nat) : Bool := y % 4 = 0 && (y % 100 ≠ 0 || y % 400 = 0)

/-- Go `daysIn(m, year)`: days in month `m` of `year` (months 1–12). -/
def daysIn (m y : Nat) : Nat :=
  if m = 2 then (if isLeap y then 29 else 28)
  else if m = 4 || m = 6 || m = 9 || m = 11 then 30
  else 31

/-- Go `time.Parse("Jan 02, 2006", s)`, as the calendar date it yields:
`none` exactly when Go returns a parse error. -/
def parseDate (s : String) : Option Date :=
  match lookupMonth s.data with
  | none => none
  | some (m, r1) =>
    match r1 with
    | ' ' :: d1 :: d2 :: ',' :: ' ' :: y1 :: y2 :: y3 :: y4 :: rest =>
      if isDigitChar d1 && isDigitChar d2 && isDigitChar y1 &&
          isDigitChar y2 && isDigitChar y3 && isDigitChar y4 && rest = [] then
        let day := digitVal d1 * 10 + digitVal d2
        let year := digitVal y1 * 1000 + digitVal y2 * 100 +
          digitVal y3 * 10 + digitVal y4
        if 1 ≤ day && day ≤ daysIn m year then
          some ⟨year, m, day⟩
        else none
      else none
    | _ => none

/-! ### Task Store operations (`addTask`, `deleteTask` cores) -/

inductive CreateError where
  | BadDate
deriving DecidableEq, Repr

/-- The store mutation at the heart of `addTask` (`main.go:90–121`):
normalise title and assignee with `ToUpper ∘ TrimSpace`, trim and parse
the due date (failure ⇒ `continue` with no mutation, modelled as
`BadDate`), then build the task with `ID = len(TasksSlice)+1`,
`Status = false`, and append it. -/
def addTask (ts : List Task) (titleIn assignedIn dueIn : String)
    (now : Int) : Except CreateError (List Task × Task) :=
  let taskTitle := toUpperStr (trimSpace titleIn)
  let taskAssigned := toUpperStr (trimSpace assignedIn)
  match parseDate (trimSpace dueIn) with
  | none => .error .BadDate
  | some dueDate =>
    let newID : Int := (ts.length : Int) + 1
    let newTask : Task :=
      { ID := newID, Title := taskTitle, AssignedTo := taskAssigned,
        Status := false, DueDate := dueDate, TimeCreated := now }
    .ok (ts ++ [newTask], newTask)

/-- The slice after an `addTask` attempt (on a parse error the loop
continues and the slice is untouched). -/
def addTaskState (ts : List Task) (titleIn assignedIn dueIn : String)
    (now : Int) : List Task :=
  match addTask ts titleIn assignedIn dueIn now with
  | .ok (ts', _) => ts'
  | .error _ => ts

/-- The linear scan of `deleteTask` (`main.go:191–197`): index of the
first task whose `ID` equals the argument, `-1` becoming `none`. -/
def indexToDelete (ts : List Task) (id : Int) : Option Nat :=
  ts.findIdx? (fun task => task.ID == id)

/-- The deletion core of `deleteTask` (`main.go:191–207`): find the
first task with the given id; absent ⇒ `none` ("Task not found!", no
mutation); present ⇒ `append(ts[:i], ts[i+1:]...)`. -/
def deleteTask (ts : List Task) (id : Int) : Option (List Task) :=
  match indexToDelete ts id with
  | none => none
  | some i => some (ts.take i ++ ts.drop (i + 1))

/-- The slice after a `deleteTask` attempt on `id` (not-found leaves the
slice unchanged). -/
def deleteTaskState (ts : List Task) (id : Int) : List Task :=
  (deleteTask ts id).getD ts

/-! ### Persistence (`saveTask`, `loadTasks`)

`saveTask` marshals the slice with `encoding/json` and overwrites
`Tasks.json`; `loadTasks` reads the file (a missing file returns) and
unmarshals into the slice.  The byte layer of `encoding/json` is
abstracted to a JSON value tree: marshalling a `[]Task` yields an array
of objects with the six tagged field names, `time.Time` values appearing
as their RFC 3339 text. -/

inductive Json where
  | num : Int → Json
  | str : String → Json
  | jbool : Bool → Json
  | arr : List Json → Json
  | obj : List (String × Json) → Json

/-- Decimal digit character for `d % 10`. -/
def digitC (d : Nat) : Char := Char.ofNat (48 + d % 10)

/-- Two-digit zero-padded field of an RFC 3339 date. -/
def pad2 (n : Nat) : List Char := [digitC (n / 10), digitC n]

/-- Four-digit zero-padded year of an RFC 3339 date. -/
def pad4 (n : Nat) : List Char :=
  [digitC (n / 1000), digitC (n / 100), digitC (n / 10), digitC n]

/-- The RFC 3339 text `json.Marshal` produces for the midnight-UTC
`time.Time` holding this date. -/
def dateToRFC3339 (d : Date) : String :=
  ⟨pad4 d.year ++ '-' :: (pad2 d.month ++ '-' :: (pad2 d.day ++
    ['T','0','0',':','0','0',':','0','0','Z']))⟩

/-- Parsing an RFC 3339 midnight-UTC text back to its date, as
`json.Unmarshal` does for a `time.Time` field. -/
def parseRFC3339 (s : String) : Option Date :=
  match s.data with
  | y1 :: y2 :: y3 :: y4 :: '-' :: m1 :: m2 :: '-' :: d1 :: d2 :: rest =>
    if isDigitChar y1 && isDigitChar y2 && isDigitChar y3 && isDigitChar y4 &&
        isDigitChar m1 && isDigitChar m2 && isDigitChar d1 && isDigitChar d2 &&
        rest = ['T','0','0',':','0','0',':','0','0','Z'] then
      some ⟨digitVal y1 * 1000 + digitVal y2 * 100 + digitVal y3 * 10 + digitVal y4,
        digitVal m1 * 10 + digitVal m2,
        digitVal d1 * 10 + digitVal d2⟩
    else none
  | _ => none

/-- Go `json.Marshal` of one `Task`: an object with the struct's tagged
field names, in declaration order. -/
def encodeTask (t : Task) : Json :=
  .obj [("ID", .num t.ID), ("Title", .str t.Title),
    ("AssignedTo", .str t.AssignedTo), ("Status", .jbool t.Status),
    ("DueDate", .str (dateToRFC3339 t.DueDate)),
    ("TimeCreated", .num t.TimeCreated)]

/-- Core of `saveTask` (`main.go:53–60`): the file contents after a save —
`json.MarshalIndent(TasksSlice, ...)`, an array of task objects in slice
order.  (Marshalling a `[]Task` cannot fail; the `os.WriteFile` error is
ignored by the code.) -/
def saveTask (ts : List Task) : Json := .arr (ts.map encodeTask)

/-- Field lookup by name in an unmarshalled object. -/
def lookupField : List (String × Json) → String → Option Json
  | [], _ => none
  | (k, v) :: rest, name => if k = name then some v else lookupField rest name

def asNum : Json → Option Int
  | .num n => some n
  | _ => none

def asStr : Json → Option String
  | .str s => some s
  | _ => none

def asBool : Json → Option Bool
  | .jbool b => some b
  | _ => none

/-- Go `json.Unmarshal` of one task object: each struct field is filled
from the identically named key. -/
def decodeTask (j : Json) : Option Task :=
  match j with
  | .obj fields => do
    let id ← lookupField fields "ID" >>= asNum
    let title ← lookupField fields "Title" >>= asStr
    let assigned ← lookupField fields "AssignedTo" >>= asStr
    let status ← lookupField fields "Status" >>= asBool
    let due ← lookupField fields "DueDate" >>= asStr >>= parseRFC3339
    let created ← lookupField fields "TimeCreated" >>= asNum
    some ⟨id, title, assigned, status, due, created⟩
  | _ => none

/-- Elementwise unmarshalling of a JSON array of task objects. -/
def decodeTaskList : List Json → Option (List Task)
  | [] => some []
  | j :: rest => do
    let t ← decodeTask j
    let ts ← decodeTaskList rest
    some (t :: ts)

/-- Go `json.Unmarshal` of the whole file into a `[]Task`. -/
def decodeTasks (j : Json) : Option (List Task) :=
  match j with
  | .arr l => decodeTaskList l
  | _ => none

/-- Core of `loadTasks` (`main.go:61–67`): `slice` is the current value of the
global `TasksSlice`.  A read error (the file does not exist) returns at
once, leaving the slice as it was and signalling nothing; otherwise the
data is unmarshalled into the slice (an unparsable file leaves it
unchanged — the `Unmarshal` error is also ignored). -/
def loadTasks (file : Option Json) (slice : List Task) : List Task :=
  match file with
  | none => slice
  | some j =>
    match decodeTasks j with
    | some ts => ts
    | none => slice

/-! ### Rendering (`showMenu`, `showAllTask`) -/

/-- The task lines printed by `showMenu` (`main.go:71–78`): `ID. Title`
for indices from `start` to the end, where `start = len - 5` once the
slice holds more than 5 tasks. -/
def showMenuTasks (ts : List Task) : List (Int × String) :=
  if ts.length > 0 then
    let start := if ts.length > 5 then ts.length - 5 else 0
    (ts.drop start).map (fun task => (task.ID, task.Title))
  else []

/-- The task lines printed by `showAllTask` (`main.go:146–159`): one
line per task of the whole slice, in order. -/
def showAllTask (ts : List Task) : List (Int × String × String × Date) :=
  ts.map (fun task => (task.ID, task.Title, task.AssignedTo, task.DueDate))

/-! ### Store reachability

The only mutations of `TasksSlice` in the program are the append in
`addTask` and the removal in `deleteTask` (plus the initial `loadTasks`,
irrelevant when starting from the empty store). -/

/-- Store states reachable from the empty slice by any sequence of
`addTask` and `deleteTask` attempts. -/
inductive ReachableStore : List Task → Prop
  | init : ReachableStore initialTasksSlice
  | create (ts : List Task) (titleIn assignedIn dueIn : String) (now : Int)
      (h : ReachableStore ts) :
      ReachableStore (addTaskState ts titleIn assignedIn dueIn now)
  | delete (ts : List Task) (id : Int) (h : ReachableStore ts) :
      ReachableStore (deleteTaskState ts id)

/-- Store states reachable from the empty slice by `addTask` attempts
alone (no deletions). -/
inductive CreateOnlyStore : List Task → Prop
  | init : CreateOnlyStore initialTasksSlice
  | create (ts : List Task) (titleIn assignedIn dueIn : String) (now : Int)
      (h : CreateOnlyStore ts) :
      CreateOnlyStore (addTaskState ts titleIn assignedIn dueIn now)

/-! ### Menu Controller (`main`, `addTask` loop, `deleteTask` loop)

Each state of the interactive program where a line of input is read
becomes a mode; `step` consumes one input line (with the clock reading
`now` used if a task is created on that line) and is translated branch
for branch from `main.go`. -/

/-- Go `strconv.Atoi`: optional sign, then one or more digits, nothing
else. -/
def atoi (s : String) : Option Int :=
  match s.data with
  | '-' :: rest =>
    if rest ≠ [] && rest.all isDigitChar then
      some (-(rest.foldl (fun a c => a * 10 + digitVal c) 0 : Nat))
    else none
  | '+' :: rest =>
    if rest ≠ [] && rest.all isDigitChar then
      some ((rest.foldl (fun a c => a * 10 + digitVal c) 0 : Nat))
    else none
  | l =>
    if l ≠ [] && l.all isDigitChar then
      some ((l.foldl (fun a c => a * 10 + digitVal c) 0 : Nat))
    else none

/-- The prompt the controller is currently blocked on. -/
inductive Mode where
  | mainMenu
  | addTitle
  | addAssigned (title : String)
  | addDate (title assigned : String)
  | addAgain
  | viewing
  | deleting
  | quitting
deriving DecidableEq, Repr

structure AppState where
  mode : Mode
  tasks : List Task
deriving DecidableEq, Repr

/-- One read-eval step of the program:

* `mainMenu` is the `switch` of `main` (`main.go:226–272`); `"D"` is
  guarded by `len(TasksSlice) > 0`, everything unrecognised redisplays
  the menu;
* `addTitle` / `addAssigned` / `addDate` are the three prompts of
  `addTask`; a date-parse failure `continue`s to the title prompt, a
  success appends the new task and moves to the "add another?" prompt;
* `addAgain` loops until `Y` (back to the title prompt) or `N` (back to
  the main menu);
* `viewing` is `pressAnyButton` after `showAllTask`: any line returns;
* `deleting` is the `deleteTask` loop (`main.go:163–216`): `Q` returns,
  non-numeric and not-found inputs re-prompt, a found id is removed and
  the loop returns to the menu exactly when the slice became empty;
* `quitting` is terminal. -/
def step (s : AppState) (line : String) (now : Int) : AppState :=
  match s.mode with
  | .mainMenu =>
    let choice := toUpperStr (trimSpace line)
    if choice = "A" then { s with mode := .addTitle }
    else if choice = "V" then { s with mode := .viewing }
    else if choice = "Q" then { s with mode := .quitting }
    else if choice = "D" then
      if s.tasks.length > 0 then { s with mode := .deleting } else s
    else s
  | .addTitle => { s with mode := .addAssigned (toUpperStr (trimSpace line)) }
  | .addAssigned title =>
    { s with mode := .addDate title (toUpperStr (trimSpace line)) }
  | .addDate title assigned =>
    match parseDate (trimSpace line) with
    | none => { s with mode := .addTitle }
    | some dueDate =>
      let newTask : Task :=
        { ID := (s.tasks.length : Int) + 1, Title := title,
          AssignedTo := assigned, Status := false, DueDate := dueDate,
          TimeCreated := now }
      { mode := .addAgain, tasks := s.tasks ++ [newTask] }
  | .addAgain =>
    let again := toUpperStr (trimSpace line)
    if again = "Y" then { s with mode := .addTitle }
    else if again = "N" then { s with mode := .mainMenu }
    else s
  | .viewing => { s with mode := .mainMenu }
  | .deleting =>
    let input := trimSpace line
    if toUpperStr input = "Q" then { s with mode := .mainMenu }
    else
      match atoi input with
      | none => s
      | some id =>
        match deleteTask s.tasks id with
        | none => s
        | some ts' =>
          if ts'.length = 0 then { mode := .mainMenu, tasks := ts' }
          else { s with tasks := ts' }
  | .quitting => s

/-- Controller states reachable from `init` by consuming input lines. -/
inductive Reachable (init : AppState) : AppState → Prop
  | refl : Reachable init init
  | tail (s : AppState) (line : String) (now : Int)
      (h : Reachable init s) : Reachable init (step s line now)

/-! ### Validity and concrete sample data -/

/-- A task whose date fields fit their fixed-width RFC 3339 rendering;
every task the program itself builds satisfies this, since `parseDate`
produces a four-digit year and a range-checked month and day. -/
def ValidTask (t : Task) : Prop :=
  t.DueDate.year ≤ 9999 ∧ 1 ≤ t.DueDate.month ∧ t.DueDate.month ≤ 12 ∧
    1 ≤ t.DueDate.day ∧ t.DueDate.day ≤ 31

instance (t : Task) : Decidable (ValidTask t) := by
  unfold ValidTask; infer_instance

/-- The task `addTask [] "buy milk" "" "Dec 25, 2024" 0` builds. -/
def buyMilkTask : Task := ⟨1, "BUY MILK", "", false, ⟨2024, 12, 25⟩, 0⟩

def taskA : Task := ⟨1, "A", "", false, ⟨2024, 12, 25⟩, 0⟩

def taskB : Task := ⟨2, "B", "", false, ⟨2024, 12, 25⟩, 0⟩

def taskC : Task := ⟨2, "C", "", false, ⟨2024, 12, 25⟩, 0⟩

/-- The store after creating tasks "A" and "B" from the empty store. -/
def storeAB : List Task :=
  addTaskState (addTaskState [] "A" "" "Dec 25, 2024" 0) "B" "" "Dec 25, 2024" 0

/-- The store `storeAB` after deleting id 1: `[taskB]`, of length 1. -/
def storeB : List Task := deleteTaskState storeAB 1

/-- The store `storeB` after creating task "C": two live tasks that both carry
id 2 (`len(storeB) + 1 = 2`). -/
def storeBC : List Task := addTaskState storeB "C" "" "Dec 25, 2024" 0

/-- Six distinct tasks, for exercising the 5-task menu window. -/
def sixTasks : List Task :=
  (List.range 6).map (fun i => ⟨(i : Int) + 1, "T", "", false, ⟨2024, 12, 25⟩, 0⟩)


/-- Successful `addTask` decomposed: the new slice is the old one with the
new task appended, and the new task's fields are as built. -/
theorem addTask_ok (ts : List Task) (titleIn assignedIn dueIn : String)
    (now : Int) (ts' : List Task) (t : Task)
    (h : addTask ts titleIn assignedIn dueIn now = .ok (ts', t)) :
    ∃ d, parseDate (trimSpace dueIn) = some d ∧
      ts' = ts ++ [t] ∧
      t = ⟨(ts.length : Int) + 1, toUpperStr (trimSpace titleIn),
        toUpperStr (trimSpace assignedIn), false, d, now⟩ := by
  unfold addTask at h
  cases hp : parseDate (trimSpace dueIn) with
  | none => rw [hp] at h; exact absurd h (by simp)
  | some d =>
    rw [hp] at h
    simp only [Except.ok.injEq, Prod.mk.injEq] at h
    obtain ⟨h1, h2⟩ := h
    subst h1
    subst h2
    exact ⟨d, rfl, rfl, rfl⟩

/-- C3: after a successful create the slice grows by exactly one, and the
new task is appended last with `ID = previous length + 1` and
`Status = false`. -/
theorem claim_C3_create_invariant (ts : List Task)
    (titleIn assignedIn dueIn : String) (now : Int) (ts' : List Task) (t : Task)
    (h : addTask ts titleIn assignedIn dueIn now = .ok (ts', t)) :
    ts'.length = ts.length + 1 ∧ ts' = ts ++ [t] ∧
      t.ID = (ts.length : Int) + 1 ∧ t.Status = false := by
  obtain ⟨d, _, hts, ht⟩ := addTask_ok ts titleIn assignedIn dueIn now ts' t h
  subst hts; subst ht
  refine ⟨by simp, rfl, rfl, rfl⟩

/-- Witness for C3 at a concrete create from the empty store. -/
theorem claim_C3_create_invariant_witness :
    [buyMilkTask].length = ([] : List Task).length + 1 ∧
      [buyMilkTask] = ([] : List Task) ++ [buyMilkTask] ∧
      buyMilkTask.ID = (([] : List Task).length : Int) + 1 ∧
      buyMilkTask.Status = false :=
  claim_C3_create_invariant [] "buy milk" "" "Dec 25, 2024" 0 [buyMilkTask]
    buyMilkTask (by rfl)


/-- C5: a due-date string the fixed-format parser rejects makes `addTask`
fail with `BadDate` and leaves the slice untouched. -/
theorem claim_C5_bad_date_rejected (ts : List Task)
    (titleIn assignedIn dueIn : String) (now : Int)
    (h : parseDate (trimSpace dueIn) = none) :
    addTask ts titleIn assignedIn dueIn now = .error .BadDate ∧
      addTaskState ts titleIn assignedIn dueIn now = ts := by
  have ha : addTask ts titleIn assignedIn dueIn now = .error .BadDate := by
    unfold addTask; rw [h]
  exact ⟨ha, by unfold addTaskState; rw [ha]⟩

/-- Witness for C5: `"2024-12-25"` is rejected and the one-task store is
unchanged. -/
theorem claim_C5_bad_date_rejected_witness :
    addTask [buyMilkTask] "walk dog" "" "2024-12-25" 0 = .error .BadDate ∧
      addTaskState [buyMilkTask] "walk dog" "" "2024-12-25" 0 = [buyMilkTask] :=
  claim_C5_bad_date_rejected [buyMilkTask] "walk dog" "" "2024-12-25" 0 (by rfl)

/-- C6: deleting an id no live task carries reports not-found (`none`)
and leaves the slice exactly as it was. -/
theorem claim_C6_not_found (ts : List Task) (x : Int)
    (h : ∀ t ∈ ts, t.ID ≠ x) :
    deleteTask ts x = none ∧ deleteTaskState ts x = ts := by
  have hidx : indexToDelete ts x = none := by
    unfold indexToDelete
    rw [List.findIdx?_eq_none_iff]
    intro t ht
    simpa using h t ht
  have hd : deleteTask ts x = none := by
    unfold deleteTask; rw [hidx]
  exact ⟨hd, by unfold deleteTaskState; rw [hd]; rfl⟩

/-- Witness for C6 at id 7, absent from the two-task store. -/
theorem claim_C6_not_found_witness :
    deleteTask [taskA, taskB] 7 = none ∧
      deleteTaskState [taskA, taskB] 7 = [taskA, taskB] :=
  claim_C6_not_found [taskA, taskB] 7 (by decide)

/-- C9: when the persistence file is absent, `loadTasks` returns leaving
the slice as initialised, so the store starts empty on first run; no
error is signalled (the function has no error result at all). -/
theorem claim_C9_missing_file_empty :
    loadTasks none initialTasksSlice = [] ∧
      ∀ slice : List Task, loadTasks none slice = slice :=
  ⟨rfl, fun _ => rfl⟩

/-- C10: with more than 5 tasks the menu shows exactly the final 5
`(ID, Title)` lines of the slice in order, while the view-all screen
still has one line per task. -/
theorem claim_C10_menu_window (ts : List Task) (h : ts.length > 5) :
    showMenuTasks ts =
        (ts.map (fun task => (task.ID, task.Title))).drop (ts.length - 5) ∧
      (showMenuTasks ts).length = 5 ∧
      (∃ pre, ts.map (fun task => (task.ID, task.Title)) =
        pre ++ showMenuTasks ts) ∧
      (showAllTask ts).length = ts.length ∧
      ∀ task ∈ ts,
        (task.ID, task.Title, task.AssignedTo, task.DueDate) ∈ showAllTask ts := by
  have h0 : ts.length > 0 := by omega
  have hm : showMenuTasks ts =
      (ts.map (fun task => (task.ID, task.Title))).drop (ts.length - 5) := by
    unfold showMenuTasks
    rw [if_pos h0, if_pos h]
    rw [List.map_drop]
  refine ⟨hm, ?_, ?_, ?_, ?_⟩
  · rw [hm, List.length_drop, List.length_map]; omega
  · refine ⟨(ts.map (fun task => (task.ID, task.Title))).take (ts.length - 5), ?_⟩
    rw [hm, List.take_append_drop]
  · unfold showAllTask; rw [List.length_map]
  · intro task ht
    unfold showAllTask
    exact List.mem_map.mpr ⟨task, ht, rfl⟩

/-- Witness for C10 on a six-task store. -/
theorem claim_C10_menu_window_witness :
    showMenuTasks sixTasks =
        (sixTasks.map (fun task => (task.ID, task.Title))).drop
          (sixTasks.length - 5) ∧
      (showMenuTasks sixTasks).length = 5 ∧
      (∃ pre, sixTasks.map (fun task => (task.ID, task.Title)) =
        pre ++ showMenuTasks sixTasks) ∧
      (showAllTask sixTasks).length = sixTasks.length ∧
      ∀ task ∈ sixTasks,
        (task.ID, task.Title, task.AssignedTo, task.DueDate) ∈
          showAllTask sixTasks :=
  claim_C10_menu_window sixTasks (by decide)


/-- Unfolding of `deleteTask` over a cons cell. -/
theorem deleteTask_cons (t : Task) (ts : List Task) (id : Int) :
    deleteTask (t :: ts) id =
      if t.ID = id then some ts
      else (deleteTask ts id).map (fun ts' => t :: ts') := by
  unfold deleteTask indexToDelete
  rw [List.findIdx?_cons, List.findIdx?_succ]
  by_cases h : t.ID = id
  · simp [h]
  · simp only [h, beq_iff_eq, if_neg h, if_false]
    cases hf : List.findIdx? (fun task => task.ID == id) ts with
    | none => simp [hf]
    | some i => simp [hf, List.take_succ_cons, List.drop_succ_cons]

/-- Successful `deleteTask` decomposed: the slice splits around the first
task carrying the requested id, and exactly that task is removed. -/
theorem deleteTask_some (ts ts' : List Task) (id : Int)
    (h : deleteTask ts id = some ts') :
    ∃ l t r, ts = l ++ t :: r ∧ t.ID = id ∧ (∀ u ∈ l, u.ID ≠ id) ∧
      ts' = l ++ r := by
  induction ts generalizing ts' with
  | nil => exact absurd h (by simp [deleteTask, indexToDelete])
  | cons t rest ih =>
    rw [deleteTask_cons] at h
    by_cases ht : t.ID = id
    · rw [if_pos ht, Option.some.injEq] at h
      exact ⟨[], t, rest, by simp, ht, by simp, h.symm⟩
    · rw [if_neg ht] at h
      cases hd : deleteTask rest id with
      | none => rw [hd] at h; exact absurd h (by simp)
      | some ts'' =>
        rw [hd] at h
        simp only [Option.map_some', Option.some.injEq] at h
        obtain ⟨l, u, r, hsplit, hu, hl, hts''⟩ := ih ts'' hd
        refine ⟨t :: l, u, r, by rw [hsplit]; rfl, hu, ?_, ?_⟩
        · intro v hv
          rcases List.mem_cons.mp hv with hvt | hvl
          · rw [hvt]; exact ht
          · exact hl v hvl
        · rw [← h, hts'']; rfl

/-- Equation for `addTaskState` on a successful create. -/
theorem addTaskState_ok (ts : List Task) (titleIn assignedIn dueIn : String)
    (now : Int) (ts' : List Task) (t : Task)
    (h : addTask ts titleIn assignedIn dueIn now = .ok (ts', t)) :
    addTaskState ts titleIn assignedIn dueIn now = ts' := by
  unfold addTaskState; rw [h]

/-- Equation for `addTaskState` on a rejected create. -/
theorem addTaskState_error (ts : List Task) (titleIn assignedIn dueIn : String)
    (now : Int) (e : CreateError)
    (h : addTask ts titleIn assignedIn dueIn now = .error e) :
    addTaskState ts titleIn assignedIn dueIn now = ts := by
  unfold addTaskState; rw [h]

/-- In a store built by creates alone, every live id lies between 1 and
the store's length. -/
theorem createOnly_ids (ts : List Task) (h : CreateOnlyStore ts) :
    ∀ t ∈ ts, 1 ≤ t.ID ∧ t.ID ≤ (ts.length : Int) := by
  induction h with
  | init => intro t ht; exact absurd ht (by simp [initialTasksSlice])
  | create ts0 titleIn assignedIn dueIn now h ih =>
    intro t ht
    cases ha : addTask ts0 titleIn assignedIn dueIn now with
    | error e =>
      rw [addTaskState_error ts0 titleIn assignedIn dueIn now e ha] at ht ⊢
      exact ih t ht
    | ok p =>
      obtain ⟨ts', newT⟩ := p
      obtain ⟨d, hp, hts, hT⟩ :=
        addTask_ok ts0 titleIn assignedIn dueIn now ts' newT ha
      rw [addTaskState_ok ts0 titleIn assignedIn dueIn now ts' newT ha] at ht ⊢
      subst hts
      rcases List.mem_append.mp ht with hmem | hmem
      · obtain ⟨h1, h2⟩ := ih t hmem
        refine ⟨h1, ?_⟩
        simp only [List.length_append, List.length_cons, List.length_nil]
        push_cast
        omega
      · rw [List.mem_singleton] at hmem
        subst hmem
        rw [hT]
        simp only [List.length_append, List.length_cons, List.length_nil]
        push_cast
        omega

/-- C1 counterexample: the store `storeB = [taskB]` is reachable from the
empty store (create "A", create "B", delete id 1), yet the id the next
create would assign, `len + 1 = 2`, equals the live id of `taskB`. -/
theorem claim_C1_counterexample :
    ReachableStore storeB ∧
      ¬ (∀ t ∈ storeB, ((storeB.length : Int) + 1) ≠ t.ID) := by
  constructor
  · have h0 : ReachableStore [] := ReachableStore.init
    have h1 := ReachableStore.create [] "A" "" "Dec 25, 2024" 0 h0
    have h2 := ReachableStore.create _ "B" "" "Dec 25, 2024" 0 h1
    exact ReachableStore.delete _ 1 h2
  · decide

/-- C1 (amended): for every store reachable from the empty store by
create operations alone, the id the next create assigns (`len + 1`)
differs from every live id. -/
theorem claim_C1_next_id_fresh (ts : List Task) (h : CreateOnlyStore ts) :
    ∀ t ∈ ts, ((ts.length : Int) + 1) ≠ t.ID := by
  intro t ht
  obtain ⟨h1, h2⟩ := createOnly_ids ts h t ht
  omega

/-- Witness for the amended C1 on the two-task create-only store, at its
second live task. -/
theorem claim_C1_next_id_fresh_witness :
    ((storeAB.length : Int) + 1) ≠ taskB.ID :=
  claim_C1_next_id_fresh storeAB
    (CreateOnlyStore.create _ "B" "" "Dec 25, 2024" 0
      (CreateOnlyStore.create [] "A" "" "Dec 25, 2024" 0 CreateOnlyStore.init))
    taskB (by decide)

/-- C2 counterexample: in the reachable store `storeBC` both live tasks
carry id 2 (an after-effect of the `len + 1` id scheme); `deleteTask`
on id 2 succeeds but removes only the first match, so an element with
id 2 survives in `list()`. -/
theorem claim_C2_counterexample :
    ReachableStore storeBC ∧
      ¬ (∀ ts', deleteTask storeBC 2 = some ts' → ∀ t ∈ ts', t.ID ≠ 2) := by
  constructor
  · have h0 : ReachableStore [] := ReachableStore.init
    have h1 := ReachableStore.create [] "A" "" "Dec 25, 2024" 0 h0
    have h2 := ReachableStore.create _ "B" "" "Dec 25, 2024" 0 h1
    have h3 := ReachableStore.delete _ 1 h2
    exact ReachableStore.create _ "C" "" "Dec 25, 2024" 0 h3
  · intro hall
    exact hall [taskC] (by decide) taskC (by decide) (by decide)

/-- C2 (amended): unconditionally, a successful `deleteById(x)` removes
exactly the first task carrying id `x` and preserves the relative order
of all remaining tasks; whenever at most one live task carries id `x`
(in particular whenever live ids are pairwise distinct), no remaining
element has id `x`. -/
theorem claim_C2_delete_invariant (ts ts' : List Task) (x : Int)
    (h : deleteTask ts x = some ts') :
    (∃ l t r, ts = l ++ t :: r ∧ t.ID = x ∧ (∀ u ∈ l, u.ID ≠ x) ∧
      ts' = l ++ r) ∧
    ((ts.filter (fun t => t.ID == x)).length ≤ 1 →
      ∀ t ∈ ts', t.ID ≠ x) := by
  obtain ⟨l, t, r, hsplit, ht, hl, hts'⟩ := deleteTask_some ts ts' x h
  refine ⟨⟨l, t, r, hsplit, ht, hl, hts'⟩, ?_⟩
  intro huniq
  have hlf : l.filter (fun u => u.ID == x) = [] := by
    rw [List.filter_eq_nil_iff]
    intro u hu
    simpa using hl u hu
  rw [hsplit, List.filter_append, List.filter_cons, hlf] at huniq
  rw [if_pos (by simpa using ht)] at huniq
  simp only [List.nil_append, List.length_cons] at huniq
  have hrf : ∀ u ∈ r, u.ID ≠ x := by
    have : (r.filter (fun u => u.ID == x)).length = 0 := by omega
    rw [List.length_eq_zero] at this
    intro u hu
    have := List.filter_eq_nil_iff.mp this u hu
    simpa using this
  intro u hu
  rw [hts'] at hu
  rcases List.mem_append.mp hu with hul | hur
  · exact hl u hul
  · exact hrf u hur

/-- Witness for the amended C2: deleting id 1 from `[taskA, taskB]`. -/
theorem claim_C2_delete_invariant_witness :
    (∃ l t r, [taskA, taskB] = l ++ t :: r ∧ t.ID = 1 ∧
      (∀ u ∈ l, u.ID ≠ 1) ∧ [taskB] = l ++ r) ∧
    (([taskA, taskB].filter (fun t => t.ID == 1)).length ≤ 1 →
      ∀ t ∈ [taskB], t.ID ≠ 1) :=
  claim_C2_delete_invariant [taskA, taskB] [taskB] 1 (by decide)

/-- C7 counterexample: `addTask` performs no non-emptiness check on the
title; creating with an empty title input succeeds and stores a task
whose `Title` is the empty string. -/
theorem claim_C7_counterexample :
    addTask [] "" "bob" "Dec 25, 2024" 0 =
      .ok ([⟨1, "", "BOB", false, ⟨2024, 12, 25⟩, 0⟩],
        (⟨1, "", "BOB", false, ⟨2024, 12, 25⟩, 0⟩ : Task)) ∧
      (⟨1, "", "BOB", false, ⟨2024, 12, 25⟩, 0⟩ : Task).Title = "" :=
  ⟨rfl, rfl⟩

/-- C7 (amended): every task stored via create has `Title` and
`AssignedTo` equal to the upper-cased, whitespace-trimmed input strings;
the title is not checked for non-emptiness and may be empty. -/
theorem claim_C7_normalised_fields (ts : List Task)
    (titleIn assignedIn dueIn : String) (now : Int) (ts' : List Task) (t : Task)
    (h : addTask ts titleIn assignedIn dueIn now = .ok (ts', t)) :
    t.Title = toUpperStr (trimSpace titleIn) ∧
      t.AssignedTo = toUpperStr (trimSpace assignedIn) := by
  obtain ⟨d, hp, hts, hT⟩ := addTask_ok ts titleIn assignedIn dueIn now ts' t h
  rw [hT]
  exact ⟨rfl, rfl⟩

/-- Witness for the amended C7 at a concrete create. -/
theorem claim_C7_normalised_fields_witness :
    (⟨1, "BUY MILK", "BOB", false, ⟨2024, 12, 25⟩, 0⟩ : Task).Title =
        toUpperStr (trimSpace "buy milk") ∧
      (⟨1, "BUY MILK", "BOB", false, ⟨2024, 12, 25⟩, 0⟩ : Task).AssignedTo =
        toUpperStr (trimSpace " bob ") :=
  claim_C7_normalised_fields [] "buy milk" " bob " "Dec 25, 2024" 0
    [⟨1, "BUY MILK", "BOB", false, ⟨2024, 12, 25⟩, 0⟩]
    ⟨1, "BUY MILK", "BOB", false, ⟨2024, 12, 25⟩, 0⟩ (by rfl)

/-- The character `digitC d` is always a digit. -/
theorem digitC_isDigit (d : Nat) : isDigitChar (digitC d) = true := by
  have h : d % 10 < 10 := Nat.mod_lt _ (by norm_num)
  unfold digitC isDigitChar
  interval_cases h : d % 10 <;> decide

/-- The numeric value of `digitC d` is `d % 10`. -/
theorem digitC_val (d : Nat) : digitVal (digitC d) = d % 10 := by
  have h : d % 10 < 10 := Nat.mod_lt _ (by norm_num)
  unfold digitC digitVal
  interval_cases h : d % 10 <;> decide

/-- The fixed-width RFC 3339 date text parses back to the date it was
rendered from, for dates whose fields fit the widths. -/
theorem parseRFC3339_dateToRFC3339 (d : Date) (hy : d.year ≤ 9999)
    (hm : d.month ≤ 31) (hd : d.day ≤ 31) :
    parseRFC3339 (dateToRFC3339 d) = some d := by
  obtain ⟨y, m, dd⟩ := d
  simp only at hy hm hd
  simp only [dateToRFC3339, pad4, pad2, parseRFC3339, List.cons_append,
    List.nil_append, digitC_isDigit, digitC_val, Bool.and_self, if_true,
    Option.some.injEq, Date.mk.injEq]
  norm_num
  refine ⟨?_, ?_, ?_⟩ <;> omega

/-- Unmarshalling inverts marshalling on one valid task. -/
theorem decodeTask_encodeTask (t : Task) (h : ValidTask t) :
    decodeTask (encodeTask t) = some t := by
  obtain ⟨t1, t2, t3, t4, t5, t6⟩ := t
  unfold ValidTask at h
  dsimp only at h
  obtain ⟨hy, _, hm2, _, hd2⟩ := h
  have hrfc : parseRFC3339 (dateToRFC3339 t5) = some t5 :=
    parseRFC3339_dateToRFC3339 t5 hy (by omega) hd2
  have hred : decodeTask (encodeTask ⟨t1, t2, t3, t4, t5, t6⟩) =
      (parseRFC3339 (dateToRFC3339 t5)).bind (fun due =>
        some ⟨t1, t2, t3, t4, due, t6⟩) := rfl
  rw [hred, hrfc]
  rfl

/-- Unmarshalling inverts marshalling on a whole valid slice. -/
theorem decodeTasks_saveTask (ts : List Task) (h : ∀ t ∈ ts, ValidTask t) :
    decodeTasks (saveTask ts) = some ts := by
  induction ts with
  | nil => rfl
  | cons t rest ih =>
    have hv := h t (List.mem_cons_self t rest)
    have hrest : ∀ u ∈ rest, ValidTask u :=
      fun u hu => h u (List.mem_cons_of_mem t hu)
    have ihr : decodeTaskList (List.map encodeTask rest) = some rest := ih hrest
    simp only [saveTask, decodeTasks, List.map_cons, decodeTaskList,
      decodeTask_encodeTask t hv, Option.bind_some] at ihr ⊢
    rw [ihr]
    rfl

/-- C4: saving any sequence of valid tasks to the persistence file and
then loading it back reproduces an equal sequence — the same fields for
each task and the same order — whatever the slice held before the load. -/
theorem claim_C4_roundtrip (ts : List Task) (h : ∀ t ∈ ts, ValidTask t)
    (slice : List Task) :
    loadTasks (some (saveTask ts)) slice = ts := by
  have : loadTasks (some (saveTask ts)) slice =
      match decodeTasks (saveTask ts) with
      | some ts' => ts'
      | none => slice := rfl
  rw [this, decodeTasks_saveTask ts h]

/-- Witness for C4 on a concrete two-task slice. -/
theorem claim_C4_roundtrip_witness :
    loadTasks (some (saveTask [taskA, taskB])) [] = [taskA, taskB] :=
  claim_C4_roundtrip [taskA, taskB] (by decide) []

/-- Preservation by `step` of "at the delete prompt implies a non-empty store":
the only way into `deleting` is the guarded `D` branch of the main menu,
and a deletion that empties the slice leaves the delete loop at once. -/
theorem step_deleting_inv (s : AppState) (line : String) (now : Int)
    (h : s.mode = .deleting → s.tasks ≠ []) :
    (step s line now).mode = .deleting → (step s line now).tasks ≠ [] := by
  obtain ⟨m, ts⟩ := s
  cases m with
  | mainMenu =>
    simp only [step]
    split_ifs with h1 h2 h3 h4 h5
    · intro hc; exact absurd hc (by simp)
    · intro hc; exact absurd hc (by simp)
    · intro hc; exact absurd hc (by simp)
    · intro _
      exact List.ne_nil_of_length_pos h5
    · intro hc; exact absurd hc (by simp)
    · intro hc; exact absurd hc (by simp)
  | addTitle =>
    intro hc; exact absurd hc (by simp [step])
  | addAssigned title =>
    intro hc; exact absurd hc (by simp [step])
  | addDate title assigned =>
    cases hp : parseDate (trimSpace line) with
    | none => intro hc; exact absurd hc (by simp [step, hp])
    | some d => intro hc; exact absurd hc (by simp [step, hp])
  | addAgain =>
    simp only [step]
    split_ifs with h1 h2
    · intro hc; exact absurd hc (by simp)
    · intro hc; exact absurd hc (by simp)
    · intro hc; exact absurd hc (by simp)
  | viewing =>
    intro hc; exact absurd hc (by simp [step])
  | deleting =>
    simp only [step]
    split_ifs with h1
    · intro hc; exact absurd hc (by simp)
    · cases ha : atoi (trimSpace line) with
      | none =>
        simp only [ha]
        intro _
        exact h rfl
      | some id =>
        simp only [ha]
        cases hd : deleteTask ts id with
        | none =>
          simp only [hd]
          intro _
          exact h rfl
        | some ts' =>
          simp only [hd]
          split_ifs with h2
          · intro hc; exact absurd hc (by simp)
          · intro _
            intro hnil
            dsimp only at hnil
            exact h2 (by rw [hnil]; rfl)
  | quitting =>
    intro hc; exact absurd hc (by simp [step])

/-- Along any run from the main menu, the delete prompt is only ever
reached with a non-empty store. -/
theorem reachable_deleting_nonempty (ts0 : List Task) (s : AppState)
    (h : Reachable ⟨.mainMenu, ts0⟩ s) :
    s.mode = .deleting → s.tasks ≠ [] := by
  induction h with
  | refl => intro hc; exact absurd hc (by simp)
  | tail s line now hr ih => exact step_deleting_inv s line now ih

/-- At the main menu with an empty store, `D` is rejected as wrong input
and the controller stays at the main menu with the store untouched. -/
theorem step_D_empty_stays (s : AppState) (hm : s.mode = .mainMenu)
    (he : s.tasks = []) (now : Int) : step s "D" now = s := by
  obtain ⟨m, ts⟩ := s
  dsimp only at hm he
  subst hm
  subst he
  rfl

/-- From the delete prompt with a non-empty store, any step that leaves
the store empty lands back at the main menu. -/
theorem step_deleting_empties_to_main (s : AppState)
    (hne : s.tasks ≠ []) (hm : s.mode = .deleting) (line : String) (now : Int)
    (h0 : (step s line now).tasks = []) :
    (step s line now).mode = .mainMenu := by
  obtain ⟨m, ts⟩ := s
  dsimp only at hm hne
  subst hm
  by_cases h1 : toUpperStr (trimSpace line) = "Q"
  · simp [step, h1]
  · cases ha : atoi (trimSpace line) with
    | none =>
      exfalso
      exact hne (by simpa [step, h1, ha] using h0)
    | some id =>
      cases hd : deleteTask ts id with
      | none =>
        exfalso
        exact hne (by simpa [step, h1, ha, hd] using h0)
      | some ts' =>
        by_cases h2 : ts'.length = 0
        · simp [step, h1, ha, hd, h2]
        · exfalso
          have : ts' = [] := by simpa [step, h1, ha, hd, h2] using h0
          exact h2 (by rw [this]; rfl)

/-- C8: along every run started at the main menu, (i) the controller is
never at the delete prompt while the store is empty; (ii) at the main
menu with an empty store, `D` renders invalid-input feedback and stays
put; (iii) from the delete prompt, any step that empties the collection
returns to the main menu automatically. -/
theorem claim_C8_deleting_guard (ts0 : List Task) (s : AppState)
    (h : Reachable ⟨.mainMenu, ts0⟩ s) :
    (s.mode = .deleting → s.tasks ≠ []) ∧
      (s.mode = .mainMenu → s.tasks = [] → ∀ now, step s "D" now = s) ∧
      (s.mode = .deleting → ∀ line now, (step s line now).tasks = [] →
        (step s line now).mode = .mainMenu) := by
  have hinv := reachable_deleting_nonempty ts0 s h
  refine ⟨hinv, ?_, ?_⟩
  · intro hm he now
    exact step_D_empty_stays s hm he now
  · intro hm line now h0
    exact step_deleting_empties_to_main s (hinv hm) hm line now h0

/-- Witness for C8 at the state reached by pressing `D` with one task. -/
theorem claim_C8_deleting_guard_witness :
    ((step ⟨.mainMenu, [taskA]⟩ "D" 0).mode = .deleting →
        (step ⟨.mainMenu, [taskA]⟩ "D" 0).tasks ≠ []) ∧
      ((step ⟨.mainMenu, [taskA]⟩ "D" 0).mode = .mainMenu →
        (step ⟨.mainMenu, [taskA]⟩ "D" 0).tasks = [] → ∀ now,
          step (step ⟨.mainMenu, [taskA]⟩ "D" 0) "D" now =
            step ⟨.mainMenu, [taskA]⟩ "D" 0) ∧
      ((step ⟨.mainMenu, [taskA]⟩ "D" 0).mode = .deleting → ∀ line now,
        (step (step ⟨.mainMenu, [taskA]⟩ "D" 0) line now).tasks = [] →
          (step (step ⟨.mainMenu, [taskA]⟩ "D" 0) line now).mode = .mainMenu) :=
  claim_C8_deleting_guard [taskA] (step ⟨.mainMenu, [taskA]⟩ "D" 0)
    (Reachable.tail ⟨.mainMenu, [taskA]⟩ "D" 0 Reachable.refl)

end GoCli
